import Mathlib

/-!
Verification of the chunked-extraction-and-synthesis pipeline of the
project-health server (`server.js`).  Strings are modelled as `List Char`
(JS UTF-16 code units restricted to scalar values); machine numbers in the
JSON data model are modelled as `Rat`.
-/

set_option maxRecDepth 4096

namespace ProjectHealth

/-- Character class of the JS regex `\s` (ECMAScript WhiteSpace ∪
LineTerminator), which is also the set stripped by `String.prototype.trim`. -/
def isJsWs (c : Char) : Bool :=
  c = ' ' || c = '\t' || c = '\n' || c = '\r' || c = '\x0b' || c = '\x0c' ||
  c = '\u00A0' || c = '\u1680' ||
  ('\u2000' ≤ c && c ≤ '\u200A') ||
  c = '\u2028' || c = '\u2029' || c = '\u202F' || c = '\u205F' ||
  c = '\u3000' || c = '\uFEFF'

/-- The sentence-terminator class `[.!?]` of the chunker's regex. -/
def isTerm (c : Char) : Bool :=
  c = '.' || c = '!' || c = '?'

/-- `window.search(/[.!?][\s\n]/g)`: index of the first position `j` such
that `w[j]` is a sentence terminator and `w[j+1]` is whitespace (`\n ⊆ \s`,
so the class `[\s\n]` equals `\s`); `none` models the return value `-1`. -/
def searchTermWs : List Char → Option Nat
  | [] => none
  | [_] => none
  | a :: b :: rest =>
    if isTerm a && isJsWs b then some 0
    else (searchTermWs (b :: rest)).map (fun n => n + 1)

/-- JS `text.substring(i, e)` for `i ≤ e ≤ text.length`. -/
def jsSubstring (text : List Char) (i e : Nat) : List Char :=
  (text.drop i).take (e - i)

/-- The cut point computed by one iteration of the `splitIntoChunks` loop:
`end = Math.min(i + chunkSize, text.length)`, then, if `end < text.length`,
moved to `i + possibleEnd + 2` when the window `text.substring(i, end)`
contains a terminator-whitespace pair (`search` returns its first index). -/
def chunkEnd (text : List Char) (chunkSize i : Nat) : Nat :=
  let e := Nat.min (i + chunkSize) text.length
  if e < text.length then
    match searchTermWs (jsSubstring text i e) with
    | some possibleEnd => i + possibleEnd + 2
    | none => e
  else e

/-- The `while (i < text.length)` loop of `splitIntoChunks`, with explicit
fuel (the loop advances `i` by at least one per iteration when
`chunkSize > 0`, so `text.length + 1` fuel is never exhausted). -/
def chunksGo (text : List Char) (chunkSize : Nat) : Nat → Nat → List (List Char)
  | 0, _ => []
  | fuel + 1, i =>
    if i < text.length then
      jsSubstring text i (chunkEnd text chunkSize i) ::
        chunksGo text chunkSize fuel (chunkEnd text chunkSize i)
    else []

/-- The full list of chunks accumulated by the loop, before the final
`chunks.splice(0, 5)`. -/
def splitIntoChunksAll (text : List Char) (chunkSize : Nat) : List (List Char) :=
  chunksGo text chunkSize (text.length + 1) 0

/-- `splitIntoChunks(text, chunkSize)`: the loop's chunks, then
`return chunks.splice(0, 5)` (the first at most five chunks). -/
def splitIntoChunks (text : List Char) (chunkSize : Nat) : List (List Char) :=
  List.take 5 (splitIntoChunksAll text chunkSize)

/-! ## JSON values and `JSON.parse` -/

/-- Parsed JSON values, as produced by `JSON.parse`.  Object members are
kept as an association list in source order; numbers are exact rationals. -/
inductive Json where
  | null : Json
  | bool (b : Bool) : Json
  | num (q : Rat) : Json
  | str (s : List Char) : Json
  | arr (elems : List Json) : Json
  | obj (members : List (List Char × Json)) : Json

/-- JSON insignificant whitespace (only space, tab, line feed, carriage
return — narrower than the JS `\s` class). -/
def skipJsonWs (s : List Char) : List Char :=
  s.dropWhile (fun c => c = ' ' || c = '\t' || c = '\n' || c = '\r')

def hexDigit (c : Char) : Option Nat :=
  let n := c.toNat
  if 48 ≤ n && n ≤ 57 then some (n - 48)
  else if 97 ≤ n && n ≤ 102 then some (n - 97 + 10)
  else if 65 ≤ n && n ≤ 70 then some (n - 65 + 10)
  else none

/-- Single-character JSON string escapes. -/
def escChar (c : Char) : Option Char :=
  if c = '"' then some '"'
  else if c = '\\' then some '\\'
  else if c = '/' then some '/'
  else if c = 'b' then some '\x08'
  else if c = 'f' then some '\x0c'
  else if c = 'n' then some '\n'
  else if c = 'r' then some '\r'
  else if c = 't' then some '\t'
  else none

/-- Body of a JSON string literal, after the opening quote; returns the
decoded characters and the remainder after the closing quote.  Unescaped
control characters are rejected. -/
def parseStringAux : List Char → Option (List Char × List Char)
  | [] => none
  | '"' :: r => some ([], r)
  | '\\' :: 'u' :: h1 :: h2 :: h3 :: h4 :: r =>
    match hexDigit h1, hexDigit h2, hexDigit h3, hexDigit h4 with
    | some a, some b, some c, some d =>
      (parseStringAux r).map
        (fun p => (Char.ofNat (((a * 16 + b) * 16 + c) * 16 + d) :: p.1, p.2))
    | _, _, _, _ => none
  | '\\' :: e :: r =>
    match escChar e with
    | some c => (parseStringAux r).map (fun p => (c :: p.1, p.2))
    | none => none
  | c :: r =>
    if c.toNat < 0x20 then none
    else (parseStringAux r).map (fun p => (c :: p.1, p.2))

def isDigit (c : Char) : Bool := 48 ≤ c.toNat && c.toNat ≤ 57

def digitsToNat (ds : List Char) : Nat :=
  ds.foldl (fun acc d => 10 * acc + (d.toNat - 48)) 0

/-- JSON number grammar: `-? int frac? exp?` with `int = 0 | [1-9][0-9]*`,
`frac = . [0-9]+`, `exp = [eE] [-+]? [0-9]+`; the exact rational value is
returned together with the remaining input. -/
def parseNumber (s : List Char) : Option (Rat × List Char) :=
  let (neg, s1) := match s with
    | '-' :: r => (true, r)
    | _ => (false, s)
  let intPart : Option (Nat × List Char) := match s1 with
    | '0' :: r => some (0, r)
    | c :: _ =>
      if isDigit c then
        some (digitsToNat (s1.takeWhile isDigit), s1.dropWhile isDigit)
      else none
    | [] => none
  match intPart with
  | none => none
  | some (ip, r1) =>
    let fracPart : Option (List Char × List Char) := match r1 with
      | '.' :: r2 =>
        let ds := r2.takeWhile isDigit
        if ds.isEmpty then none else some (ds, r2.dropWhile isDigit)
      | _ => some ([], r1)
    match fracPart with
    | none => none
    | some (fds, r3) =>
      let expPart : Option (Int × List Char) := match r3 with
        | 'e' :: r4 | 'E' :: r4 =>
          let (esign, r5) : Bool × List Char := match r4 with
            | '-' :: r6 => (true, r6)
            | '+' :: r6 => (false, r6)
            | _ => (false, r4)
          let ds := r5.takeWhile isDigit
          if ds.isEmpty then none
          else
            let e : Int := Int.ofNat (digitsToNat ds)
            some (if esign then -e else e, r5.dropWhile isDigit)
        | _ => some (0, r3)
      match expPart with
      | none => none
      | some (ex, r7) =>
        let mant : Int := Int.ofNat (ip * 10 ^ fds.length + digitsToNat fds)
        let e : Int := ex - Int.ofNat fds.length
        let q : Rat := mkRat (mant * 10 ^ e.toNat) (10 ^ (-e).toNat)
        some ((if neg then -q else q), r7)

mutual

/-- A JSON value at the head of the input (leading whitespace already
skipped by the caller); fuel bounds the nesting recursion. -/
def parseValue : Nat → List Char → Option (Json × List Char)
  | 0, _ => none
  | fuel + 1, s =>
    match s with
    | 't' :: 'r' :: 'u' :: 'e' :: r => some (Json.bool true, r)
    | 'f' :: 'a' :: 'l' :: 's' :: 'e' :: r => some (Json.bool false, r)
    | 'n' :: 'u' :: 'l' :: 'l' :: r => some (Json.null, r)
    | '"' :: r => (parseStringAux r).map (fun p => (Json.str p.1, p.2))
    | '\x7b' :: r =>
      match skipJsonWs r with
      | '\x7d' :: r2 => some (Json.obj [], r2)
      | _ => (parseMembers fuel r).map (fun p => (Json.obj p.1, p.2))
    | '[' :: r =>
      match skipJsonWs r with
      | ']' :: r2 => some (Json.arr [], r2)
      | _ => (parseElems fuel r).map (fun p => (Json.arr p.1, p.2))
    | _ => (parseNumber s).map (fun p => (Json.num p.1, p.2))

/-- Members of a JSON object (`ws string ws : element` separated by commas),
starting right after the opening brace or a comma; consumes the closing
brace. -/
def parseMembers : Nat → List Char → Option (List (List Char × Json) × List Char)
  | 0, _ => none
  | fuel + 1, s =>
    match skipJsonWs s with
    | '"' :: r =>
      match parseStringAux r with
      | none => none
      | some (k, r1) =>
        match skipJsonWs r1 with
        | ':' :: r2 =>
          match parseValue fuel (skipJsonWs r2) with
          | none => none
          | some (v, r3) =>
            match skipJsonWs r3 with
            | ',' :: r4 => (parseMembers fuel r4).map (fun p => ((k, v) :: p.1, p.2))
            | '\x7d' :: r4 => some ([(k, v)], r4)
            | _ => none
        | _ => none
    | _ => none

/-- Elements of a JSON array, starting right after the opening bracket or a
comma; consumes the closing bracket. -/
def parseElems : Nat → List Char → Option (List Json × List Char)
  | 0, _ => none
  | fuel + 1, s =>
    match parseValue fuel (skipJsonWs s) with
    | none => none
    | some (v, r1) =>
      match skipJsonWs r1 with
      | ',' :: r2 => (parseElems fuel r2).map (fun p => (v :: p.1, p.2))
      | ']' :: r2 => some ([v], r2)
      | _ => none

end

/-- `JSON.parse(s)`: a single JSON element (`ws value ws`) spanning the
whole input, or `none` on a syntax error. -/
def jsonParse (s : List Char) : Option Json :=
  match parseValue (s.length + 2) (skipJsonWs s) with
  | some (v, rest) => if skipJsonWs rest = [] then some v else none
  | none => none

/-! ## `extractJsonFromResponse` -/

/-- `String.prototype.trim()`. -/
def jsTrim (s : List Char) : List Char :=
  ((s.dropWhile isJsWs).reverse.dropWhile isJsWs).reverse

def dropTrailingWs (s : List Char) : List Char :=
  (s.reverse.dropWhile isJsWs).reverse

def backtick : Char := '\x60'

/-- Does the input start with a triple-backtick fence marker? -/
def startsTicks : List Char → Bool
  | a :: b :: c :: _ => a = backtick && b = backtick && c = backtick
  | _ => false

/-- Index of the first triple-backtick fence marker, if any. -/
def findTicksIdx : List Char → Option Nat
  | [] => none
  | a :: t =>
    if startsTicks (a :: t) then some 0
    else (findTicksIdx t).map (fun n => n + 1)

/-- The optional `(?:json)?` label after the opening fence. -/
def dropJsonLabel (s : List Char) : List Char :=
  match s with
  | 'j' :: 's' :: 'o' :: 'n' :: r => r
  | _ => s

/-- Completion of the fence pattern from just after an opening marker:
consume the optional `json` label and the greedy `\s*`, then the lazy group
runs to the next closing marker with its trailing whitespace (absorbed by
the second greedy `\s*`) stripped; `none` when no closing marker follows. -/
def fenceComplete (rest : List Char) : Option (List Char) :=
  let r2 := (dropJsonLabel rest).dropWhile isJsWs
  match findTicksIdx r2 with
  | none => none
  | some q => some (dropTrailingWs (r2.take q))

/-- Capture group of `content.match(/\x60\x60\x60(?:json)?\s*([\s\S]*?)\s*\x60\x60\x60/)`:
the regex engine tries each start position left to right and matches at the
first opening fence that is followed by a closing fence. -/
def fencedGroup : List Char → Option (List Char)
  | [] => none
  | a :: t =>
    if startsTicks (a :: t) then
      match fenceComplete (t.drop 2) with
      | some g => some g
      | none => fencedGroup t
    else fencedGroup t

def idxOfFirst (c : Char) : List Char → Option Nat
  | [] => none
  | a :: t => if a = c then some 0 else (idxOfFirst c t).map (fun n => n + 1)

def idxOfLast (c : Char) (s : List Char) : Option Nat :=
  (idxOfFirst c s.reverse).map (fun n => s.length - 1 - n)

/-- Match of `content.match(/\x7b[\s\S]*\x7d/)`: from the first opening brace
to the last closing brace (greedy), provided the latter comes after the
former; `none` models a null match. -/
def bareSpan (s : List Char) : Option (List Char) :=
  match idxOfFirst '\x7b' s, idxOfLast '\x7d' s with
  | some p, some q => if p < q then some (jsSubstring s p (q + 1)) else none
  | _, _ => none

/-- A chat message (`role`/`content` pair) as sent to and returned by
`ollama.chat`. -/
structure ChatMessage where
  role : List Char
  content : List Char

/-- The shape of an `ollama.chat` response that the code reads
(`response.message.content`). -/
structure OllamaResponse where
  message : ChatMessage

/-- The exceptions that can be thrown inside the `try` block of
`extractJsonFromResponse`. -/
inductive ExtractErr where
  | parseError : ExtractErr
  | noJsonFound : ExtractErr

/-- `JSON.parse`, with a syntax error surfaced as a thrown exception. -/
def parseOrThrow (s : List Char) : Except ExtractErr Json :=
  match jsonParse s with
  | some j => Except.ok j
  | none => Except.error ExtractErr.parseError

/-- The `else` branch of `extractJsonFromResponse`: try to find JSON
directly via the bare-brace match, else `throw new Error("No JSON found in
response")`. -/
def bareBranch (content : List Char) : Except ExtractErr Json :=
  match bareSpan content with
  | some possibleJson => parseOrThrow possibleJson
  | none => Except.error ExtractErr.noJsonFound

/-- The body of the `try` block of `extractJsonFromResponse`: the fenced
branch is taken only when the match succeeded with a non-empty (truthy)
capture group; a parse failure there does not fall through to the bare
branch but throws. -/
def extractBody (content : List Char) : Except ExtractErr Json :=
  match fencedGroup content with
  | some g => if g.isEmpty then bareBranch content else parseOrThrow (jsTrim g)
  | none => bareBranch content

/-- `extractJsonFromResponse(response)`: the `catch` swallows every
exception and the function returns `null` (modelled as `none`). -/
def extractJsonFromResponse (response : OllamaResponse) : Option Json :=
  match extractBody response.message.content with
  | Except.ok j => some j
  | Except.error _ => none

/-- A response wrapper used to feed concrete contents to the extractor. -/
def mkResp (content : List Char) : OllamaResponse :=
  ⟨⟨("assistant").toList, content⟩⟩

/-! ## Orchestrators: per-chunk extraction and synthesis -/

/-- `Array.prototype.join(sep)`. -/
def jsJoin (sep : List Char) : List (List Char) → List Char
  | [] => []
  | [x] => x
  | x :: y :: t => x ++ sep ++ jsJoin sep (y :: t)

/-- The system instruction of each per-chunk extraction call, parameterized
by the data-source label. -/
def extractPrompt (dataType : List Char) : List Char :=
  ("Extract key project health metrics from this ").toList ++ dataType ++
    (" data chunk. Focus on quantitative data.").toList

/-- `extractMetricsFromChunks(chunks, dataType)`: one `ollama.chat` call per
chunk, in order, pushing each `response.message.content` and joining the
results with a blank line.  The network call is abstracted as the function
argument `chat` from the message list to the response. -/
def extractMetricsFromChunks (chat : List ChatMessage → OllamaResponse)
    (chunks : List (List Char)) (dataType : List Char) : List Char :=
  jsJoin ("\n\n").toList
    (chunks.map (fun chunk =>
      (chat [⟨("system").toList, extractPrompt dataType⟩,
             ⟨("user").toList, chunk⟩]).message.content))

/-- The fixed synthesis instruction (the final user message of
`getProjectHealthAnalysis`), verbatim from the source template literal. -/
def synthesisPrompt : List Char :=
  (
  "Based on these metrics, this project health analysis of given JSON format type don\x27t add any comment inside json I need clean json which can be easilty parsed by JSON.parse:\n" ++
  "        \x7b\n" ++
  "          \"projectHealth\": \"GREEN|YELLOW|RED\",\n" ++
  "          \"score\": 0-100, // Overall project health score\n" ++
  "          \"metrics\": \x7b\n" ++
  "            \"velocity\": number // Number representing team velocity,\n" ++
  "            \"issueStatus\": \x7b\n" ++
  "              \"open\": number, // Number of open issues\n" ++
  "              \"inProgress\": number, // Number of issues in progress\n" ++
  "              \"closed\": number // Number of closed issues\n" ++
  "            \x7d,\n" ++
  "            \"teamPerformance\": \x7b\n" ++
  "                \"engagement\": 78, // Team engagement score out of 100\n" ++
  "                \"satisfaction\": 72, // Team satisfaction score out of 100\n" ++
  "                \"velocity\": 75 // Team velocity score out of 100\n" ++
  "            \x7d,\n" ++
  "            projectRiskFactors: \x7b // Overall project risk factors\n" ++
  "                \"risk1\": \x7b\n" ++
  "                    \"description\": \"Description of the risk factor\",\n" ++
  "                    \"impact\": \"HIGH|MEDIUM|LOW\", // Impact level of the risk\n" ++
  "                    \"mitigationStatus\": \"NOT_STARTED|IN_PROGRESS|COMPLETED\" // Current status of risk mitigation\n" ++
  "                \x7d\n" ++
  "            \x7d[] // List of overall project risk factors\n" ++
  "            ,\n" ++
  "            \"milestones\": \x7b\n" ++
  "                \"title\": \"Milestone 1\",\n" ++
  "                \"description\": \"Description of Milestone 1\",\n" ++
  "                \"status\": \"GREEN\"|\"YELLOW\"|\"RED\", // status of the milestone based on due date and completion percentage\n" ++
  "                \"completionPercentage\": number, // percentage of tasks completed for the milestone\n" ++
  "                \"dueDate\": \"2023-10-01\", // due date of the milestone\n" ++
  "                \"velocity\": number // velocity of the team related to this milestone,\n" ++
  "                \"riskFactors\": \x7b // Milestone risk factors\n" ++
  "                    \"risk1\": \x7b\n" ++
  "                        \"description\": \"Description of the risk factor\",\n" ++
  "                        \"impact\": \"HIGH|MEDIUM|LOW\", // Impact level of the risk\n" ++
  "                        \"mitigationStatus\": \"NOT_STARTED|IN_PROGRESS|COMPLETED\" // Current status of risk mitigation\n" ++
  "                    \x7d\n" ++
  "                \x7d[] // List of risk factors affecting this milestone\n" ++
  "            \x7d[],\n" ++
  "            \"recommendations\": \x7b\n" ++
  "                \"title\": \"Recommendation 1\",\n" ++
  "                \"description\": \"Description of recommendation 1\",\n" ++
  "                \"status\": \"NOT_STARTED|IN_PROGRESS|COMPLETED\"\n" ++
  "            \x7d[],\n" ++
  "          \x7d,\n" ++
  "          \"analysis\": \"summary text\"\n" ++
  "        \x7d"
  ).toList

/-- `getProjectHealthAnalysis(jiraMetrics, confluenceMetrics)`: the single
synthesis call, four messages, returning the oracle response. -/
def getProjectHealthAnalysis (chat : List ChatMessage → OllamaResponse)
    (jiraMetrics confluenceMetrics : List Char) : OllamaResponse :=
  chat
    [⟨("system").toList,
      ("Create a project health analysis in JSON format that can be parsed with JSON.parse").toList⟩,
     ⟨("user").toList, ("Jira metrics: ").toList ++ jiraMetrics⟩,
     ⟨("user").toList, ("Confluence metrics: ").toList ++ confluenceMetrics⟩,
     ⟨("user").toList, synthesisPrompt⟩]

/-- The `/api/project-health` handler after the file reads: chunk both data
sources, extract metrics per chunk, make the synthesis call, and `res.send`
the result of `extractJsonFromResponse` with no further validation. -/
def projectHealthPipeline (chat : List ChatMessage → OllamaResponse)
    (jiraData confluenceData : List Char) : Option Json :=
  let jiraChunks := splitIntoChunks jiraData 5000
  let confluenceChunks := splitIntoChunks confluenceData 5000
  let jiraMetrics := extractMetricsFromChunks chat jiraChunks ("Jira").toList
  let confluenceMetrics := extractMetricsFromChunks chat confluenceChunks ("Confluence").toList
  extractJsonFromResponse (getProjectHealthAnalysis chat jiraMetrics confluenceMetrics)

/-! ## Helper predicates used in the claim statements -/

/-- The regex `[.!?][\s\n]` matches the window `w` at position `j`. -/
def termWsAt (w : List Char) (j : Nat) : Bool :=
  decide (j + 1 < w.length) && isTerm (w.getD j ' ') && isJsWs (w.getD (j + 1) ' ')

/-- Modelled from the spec: the position of the LAST occurrence of a
sentence-terminator character immediately followed by whitespace in the
window (the spec says the cut point is two characters past this position;
the source instead uses the first occurrence, via `String.prototype.search`). -/
def specLastTermWs (w : List Char) : Option Nat :=
  ((List.range w.length).filter (fun j => termWsAt w j)).getLast?

/-- The `score` field of a parsed report object, when it is a number. -/
def scoreOf (j : Json) : Option Rat :=
  match j with
  | Json.obj kvs =>
    match kvs.lookup ("score").toList with
    | some (Json.num q) => some q
    | _ => none
  | _ => none

/-- A stub synthesis oracle whose response carries an out-of-range score. -/
def stubChat150 : List ChatMessage → OllamaResponse :=
  fun _ => mkResp ("\x7b\"projectHealth\": \"GREEN\", \"score\": 150\x7d").toList

/-! ## Support lemmas -/

/-- A successful `search` leaves room for the two-character match inside the
window. -/
theorem searchTermWs_some_le : ∀ (w : List Char) (p : Nat),
    searchTermWs w = some p → p + 2 ≤ w.length
  | [], p, h => by simp [searchTermWs] at h
  | [_], p, h => by simp [searchTermWs] at h
  | a :: b :: t, p, h => by
    rw [searchTermWs] at h
    by_cases hc : (isTerm a && isJsWs b) = true
    · rw [if_pos hc] at h
      cases h
      simp [List.length_cons]
    · rw [if_neg hc] at h
      rcases Option.map_eq_some'.mp h with ⟨n, hn, rfl⟩
      have := searchTermWs_some_le (b :: t) n hn
      simp only [List.length_cons] at this ⊢
      omega

/-- Matching `termWsAt` one position deeper after a cons. -/
theorem termWsAt_cons_succ (a : Char) (r : List Char) (j : Nat) :
    termWsAt (a :: r) (j + 1) = termWsAt r j := by
  unfold termWsAt
  simp [List.length_cons, List.getD_cons_succ,
    show (j + 1 + 1 < r.length + 1) = (j + 1 < r.length) from propext (by omega)]

/-- At the head of a two-element-or-longer list, `termWsAt` is exactly the
two-character class test. -/
theorem termWsAt_cons2_zero (a b : Char) (t : List Char) :
    termWsAt (a :: b :: t) 0 = (isTerm a && isJsWs b) := by
  have h : 0 + 1 < (a :: b :: t).length := by simp [List.length_cons]
  unfold termWsAt
  simp [h, List.getD_cons_zero, List.getD_cons_succ]

/-- `String.prototype.search` returns the index of the first match: if
position `p` matches and no earlier position does, `search` returns `p`. -/
theorem searchTermWs_eq_first : ∀ (w : List Char) (p : Nat),
    termWsAt w p = true → (∀ q, q < p → termWsAt w q = false) →
    searchTermWs w = some p
  | [], p, hp, _ => by simp [termWsAt] at hp
  | [_], p, hp, _ => by
    simp [termWsAt, List.length_singleton] at hp
  | a :: b :: t, p, hp, hmin => by
    rw [searchTermWs]
    by_cases hc : (isTerm a && isJsWs b) = true
    · rw [if_pos hc]
      rcases Nat.eq_zero_or_pos p with rfl | hpos
      · rfl
      · exfalso
        have h0 := hmin 0 hpos
        rw [termWsAt_cons2_zero, hc] at h0
        simp at h0
    · rw [if_neg hc]
      rcases Nat.eq_zero_or_pos p with rfl | hpos
      · exfalso
        rw [termWsAt_cons2_zero] at hp
        exact hc hp
      · obtain ⟨p', rfl⟩ : ∃ p', p = p' + 1 := ⟨p - 1, by omega⟩
        rw [termWsAt_cons_succ] at hp
        have hmin' : ∀ q, q < p' → termWsAt (b :: t) q = false := by
          intro q hq
          have := hmin (q + 1) (by omega)
          rwa [termWsAt_cons_succ] at this
        rw [searchTermWs_eq_first (b :: t) p' hp hmin']
        rfl

/-- The `let` of `chunkEnd`, zeta-reduced. -/
theorem chunkEnd_def (text : List Char) (cs i : Nat) :
    chunkEnd text cs i =
      if Nat.min (i + cs) text.length < text.length then
        match searchTermWs (jsSubstring text i (Nat.min (i + cs) text.length)) with
        | some possibleEnd => i + possibleEnd + 2
        | none => Nat.min (i + cs) text.length
      else Nat.min (i + cs) text.length := rfl

/-- Value of the cut point when the window search finds a match. -/
theorem chunkEnd_eq_some (text : List Char) (cs i p : Nat)
    (hlt : Nat.min (i + cs) text.length < text.length)
    (hs : searchTermWs (jsSubstring text i (Nat.min (i + cs) text.length)) = some p) :
    chunkEnd text cs i = i + p + 2 := by
  rw [chunkEnd_def, if_pos hlt, hs]

/-- Value of the cut point when the window search finds no match. -/
theorem chunkEnd_eq_none (text : List Char) (cs i : Nat)
    (hlt : Nat.min (i + cs) text.length < text.length)
    (hs : searchTermWs (jsSubstring text i (Nat.min (i + cs) text.length)) = none) :
    chunkEnd text cs i = Nat.min (i + cs) text.length := by
  rw [chunkEnd_def, if_pos hlt, hs]

/-- Value of the cut point when the tentative end reaches the end of the
text (no boundary search is performed). -/
theorem chunkEnd_eq_tail (text : List Char) (cs i : Nat)
    (hge : ¬ Nat.min (i + cs) text.length < text.length) :
    chunkEnd text cs i = Nat.min (i + cs) text.length := by
  rw [chunkEnd_def, if_neg hge]

/-- The window substring has length at most `min (i + cs) len - i`. -/
theorem window_length_le (text : List Char) (cs i : Nat) :
    (jsSubstring text i (Nat.min (i + cs) text.length)).length ≤
      Nat.min (i + cs) text.length - i := by
  simp only [jsSubstring, List.length_take, List.length_drop]
  exact Nat.min_le_left _ _

/-- When the loop has not reached the end of the text and the chunk size is
positive, the cut point strictly advances and stays within the text. -/
theorem chunkEnd_bounds (text : List Char) (cs i : Nat) (hcs : 0 < cs)
    (hi : i < text.length) :
    i < chunkEnd text cs i ∧ chunkEnd text cs i ≤ text.length := by
  have hmr : Nat.min (i + cs) text.length ≤ text.length := Nat.min_le_right _ _
  have hml : Nat.min (i + cs) text.length ≤ i + cs := Nat.min_le_left _ _
  have hmg : i + 1 ≤ Nat.min (i + cs) text.length :=
    Nat.le_min.mpr ⟨by omega, hi⟩
  by_cases hlt : Nat.min (i + cs) text.length < text.length
  · cases hs : searchTermWs (jsSubstring text i (Nat.min (i + cs) text.length)) with
    | some p =>
      rw [chunkEnd_eq_some text cs i p hlt hs]
      have hp2 : p + 2 ≤ Nat.min (i + cs) text.length - i :=
        Nat.le_trans (searchTermWs_some_le _ _ hs) (window_length_le text cs i)
      omega
    | none =>
      rw [chunkEnd_eq_none text cs i hlt hs]
      omega
  · rw [chunkEnd_eq_tail text cs i hlt]
    omega

/-- Each chunk pushed by the loop has length at most the chunk size. -/
theorem chunkLen_le (text : List Char) (cs i : Nat) :
    (jsSubstring text i (chunkEnd text cs i)).length ≤ cs := by
  have hml : Nat.min (i + cs) text.length ≤ i + cs := Nat.min_le_left _ _
  have hend : chunkEnd text cs i ≤ i + cs := by
    by_cases hlt : Nat.min (i + cs) text.length < text.length
    · cases hs : searchTermWs (jsSubstring text i (Nat.min (i + cs) text.length)) with
      | some p =>
        rw [chunkEnd_eq_some text cs i p hlt hs]
        have hp2 : p + 2 ≤ Nat.min (i + cs) text.length - i :=
          Nat.le_trans (searchTermWs_some_le _ _ hs) (window_length_le text cs i)
        omega
      | none =>
        rw [chunkEnd_eq_none text cs i hlt hs]
        omega
    · rw [chunkEnd_eq_tail text cs i hlt]
      omega
  have hw : (jsSubstring text i (chunkEnd text cs i)).length ≤ chunkEnd text cs i - i := by
    simp only [jsSubstring, List.length_take, List.length_drop]
    exact Nat.min_le_left _ _
  omega

/-- Every chunk in the loop's output obeys the size bound. -/
theorem mem_chunksGo_length_le (text : List Char) (cs : Nat) :
    ∀ (fuel i : Nat) (c : List Char), c ∈ chunksGo text cs fuel i →
    c.length ≤ cs := by
  intro fuel
  induction fuel with
  | zero => intro i c h; simp [chunksGo] at h
  | succ n ih =>
    intro i c h
    rw [chunksGo] at h
    by_cases hi : i < text.length
    · rw [if_pos hi] at h
      rcases List.mem_cons.mp h with rfl | h
      · exact chunkLen_le text cs i
      · exact ih _ _ h
    · rw [if_neg hi] at h
      simp at h

/-- Any fuel at least the remaining length yields the same loop result. -/
theorem chunksGo_fuel_succ (text : List Char) (cs : Nat) (hcs : 0 < cs) :
    ∀ (fuel i : Nat), text.length - i ≤ fuel →
    chunksGo text cs fuel i = chunksGo text cs (fuel + 1) i := by
  intro fuel
  induction fuel with
  | zero =>
    intro i h
    have hi : ¬ i < text.length := by omega
    rw [chunksGo, chunksGo, if_neg hi]
  | succ n ih =>
    intro i h
    by_cases hi : i < text.length
    · have hb := chunkEnd_bounds text cs i hcs hi
      rw [chunksGo, chunksGo, if_pos hi, if_pos hi]
      rw [ih (chunkEnd text cs i) (by omega)]
    · rw [chunksGo, chunksGo, if_neg hi, if_neg hi]

/-- Fuel beyond the remaining length is irrelevant. -/
theorem chunksGo_fuel_add (text : List Char) (cs : Nat) (hcs : 0 < cs) :
    ∀ (k fuel i : Nat), text.length - i ≤ fuel →
    chunksGo text cs (fuel + k) i = chunksGo text cs fuel i := by
  intro k
  induction k with
  | zero => intro fuel i _; rfl
  | succ n ih =>
    intro fuel i h
    have h1 := ih fuel i h
    have h2 := chunksGo_fuel_succ text cs hcs (fuel + n) i (by omega)
    calc chunksGo text cs (fuel + (n + 1)) i
        = chunksGo text cs (fuel + n + 1) i := rfl
      _ = chunksGo text cs (fuel + n) i := h2.symm
      _ = chunksGo text cs fuel i := h1

/-- `jsJoin` agrees with `List.intercalate`. -/
theorem jsJoin_eq_intercalate (sep : List Char) :
    ∀ (xs : List (List Char)), jsJoin sep xs = List.intercalate sep xs
  | [] => by simp [jsJoin, List.intercalate]
  | [x] => by simp [jsJoin, List.intercalate]
  | x :: y :: t => by
    rw [jsJoin, jsJoin_eq_intercalate sep (y :: t)]
    simp [List.intercalate, List.flatten, List.append_assoc]

/-! ## Claim theorems -/

/-- C1 (chunk coverage): the claim fails on the code at `text = "aaaaaa"`,
`maxSize = 1`: the final `splice(0, 5)` (marked `to do remove this` in the
source) drops the sixth chunk, so the concatenation of the returned chunks
is `"aaaaa"`, not the input; the uncapped loop output does concatenate back
to the input exactly, isolating the cap as the slip. -/
theorem chunkCoverage_cap_bug :
    (splitIntoChunks ("aaaaaa").toList 1).flatten = ("aaaaa").toList ∧
    ("aaaaa").toList ≠ ("aaaaaa").toList ∧
    (splitIntoChunksAll ("aaaaaa").toList 1).flatten = ("aaaaaa").toList :=
  ⟨by decide, by decide, by decide⟩

/-- C2 counterexample: with a synthesis oracle responding with a report
whose score is 150, the pipeline returns that parsed object — score out of
[0,100] and untouched — whereas the claim says the synthesis step must fail
with AnalysisUnavailable and never return the object. -/
theorem synthScore_returned_cex :
    projectHealthPipeline stubChat150 [] [] =
      some (Json.obj [(("projectHealth").toList, Json.str ("GREEN").toList),
        (("score").toList, Json.num 150)]) ∧
    scoreOf (Json.obj [(("projectHealth").toList, Json.str ("GREEN").toList),
        (("score").toList, Json.num 150)]) = some 150 ∧
    ¬ ((150 : Rat) ≤ 100) :=
  ⟨rfl, rfl, by decide⟩

/-- C2 (amended): the route applies no validation between the JSON
extractor and the HTTP response: whatever object the synthesis response
parses to — an out-of-range score included — the pipeline returns it
unchanged (never clamped, never failed). -/
theorem synthScore_passthrough (resp : OllamaResponse) (j : Json)
    (h : extractJsonFromResponse resp = some j) :
    projectHealthPipeline (fun _ => resp) [] [] = some j := h

/-- Witness for C2: a response carrying score 250 is passed through. -/
theorem synthScore_passthrough_witness :
    projectHealthPipeline (fun _ => mkResp ("\x7b\"score\": 250\x7d").toList) [] [] =
      some (Json.obj [(("score").toList, Json.num 250)]) :=
  synthScore_passthrough (mkResp ("\x7b\"score\": 250\x7d").toList)
    (Json.obj [(("score").toList, Json.num 250)]) rfl

/-- C3 counterexample: on `"\x7ba: 1,\x7d"` (unquoted key, trailing comma)
the parse error is caught inside `extractJsonFromResponse` and the function
returns null (`none`); no ExtractionFailed failure reaches the caller. -/
theorem extractJson_malformed_cex :
    extractJsonFromResponse (mkResp ("\x7ba: 1,\x7d").toList) = none ∧
    extractBody ("\x7ba: 1,\x7d").toList = Except.error ExtractErr.parseError :=
  ⟨rfl, rfl⟩

/-- C3 (amended): whenever neither strategy yields valid strict JSON (the
try-block body throws), `extractJsonFromResponse` catches the exception and
returns null rather than signaling the failure. -/
theorem extractJson_malformed_null (content : List Char) (e : ExtractErr)
    (h : extractBody content = Except.error e) :
    extractJsonFromResponse (mkResp content) = none := by
  show (match extractBody content with
        | Except.ok j => some j
        | Except.error _ => none) = none
  rw [h]

/-- Witness for C3: a response with no JSON at all also comes back null. -/
theorem extractJson_malformed_null_witness :
    extractJsonFromResponse (mkResp ("no json here").toList) = none :=
  extractJson_malformed_null ("no json here").toList ExtractErr.noJsonFound rfl

/-- C4 counterexample: for text `"a. b. c"`, maxSize 6, offset 0, the window
`"a. b. "` has its LAST terminator-whitespace pair at index 4, so the claim
predicts a cut at 0 + 4 + 2 = 6; the code cuts at 3 (the FIRST match,
`String.prototype.search` semantics). -/
theorem chunkCut_last_cex :
    specLastTermWs (jsSubstring ("a. b. c").toList 0
        (Nat.min (0 + 6) ("a. b. c").toList.length)) = some 4 ∧
    Nat.min (0 + 6) ("a. b. c").toList.length < ("a. b. c").toList.length ∧
    chunkEnd ("a. b. c").toList 6 0 = 3 ∧ (3 : Nat) ≠ 0 + 4 + 2 :=
  ⟨by decide, by decide, by decide, by decide⟩

/-- C4 (amended): whenever the tentative end is strictly before the end of
the text and the window contains a terminator-whitespace pair, the cut is
two characters past the FIRST such pair in the window. -/
theorem chunkCut_first (text : List Char) (cs i p : Nat)
    (hlt : Nat.min (i + cs) text.length < text.length)
    (hp : termWsAt (jsSubstring text i (Nat.min (i + cs) text.length)) p = true)
    (hmin : ∀ q, q < p →
      termWsAt (jsSubstring text i (Nat.min (i + cs) text.length)) q = false) :
    chunkEnd text cs i = i + p + 2 :=
  chunkEnd_eq_some text cs i p hlt (searchTermWs_eq_first _ p hp hmin)

/-- Witness for C4: in `"ab. cd"` with maxSize 4, the first (and only) pair
sits at window index 2, and the cut lands at 4. -/
theorem chunkCut_first_witness : chunkEnd ("ab. cd").toList 4 0 = 0 + 2 + 2 :=
  chunkCut_first ("ab. cd").toList 4 0 2 (by decide) (by decide) (by decide)

/-- C5 (chunk bound): for positive maxSize, every chunk returned by
`splitIntoChunks` has length at most maxSize — also when no sentence
boundary was found, since the tentative end is never exceeded. -/
theorem chunkBound_le (text : List Char) (cs : Nat) (hcs : 0 < cs) :
    ∀ c ∈ splitIntoChunks text cs, c.length ≤ cs := by
  intro c hc
  exact mem_chunksGo_length_le text cs _ _ c (List.take_subset _ _ hc)

/-- Witness for C5: the first chunk of `"ab. cd"` at maxSize 4. -/
theorem chunkBound_le_witness : (("ab. ").toList).length ≤ 4 :=
  chunkBound_le ("ab. cd").toList 4 (by decide) ("ab. ").toList (by decide)

/-- C6 (fenced extraction): the interior of the triple-backtick `json`
block is trimmed and parsed, yielding the object `a ↦ 1`. -/
theorem fencedExtraction_ok :
    extractJsonFromResponse
      (mkResp ("prefix \x60\x60\x60json\n\x7b\"a\":1\x7d\n\x60\x60\x60 suffix").toList) =
    some (Json.obj [(("a").toList, Json.num 1)]) := rfl

/-- C7 (bare extraction): with no fenced block present, the greedy
first-brace-to-last-brace span is parsed, yielding the object `a ↦ 1`. -/
theorem bareExtraction_ok :
    fencedGroup ("Here is the result: \x7b\"a\":1\x7d thanks").toList = none ∧
    bareSpan ("Here is the result: \x7b\"a\":1\x7d thanks").toList =
      some ("\x7b\"a\":1\x7d").toList ∧
    extractJsonFromResponse
      (mkResp ("Here is the result: \x7b\"a\":1\x7d thanks").toList) =
    some (Json.obj [(("a").toList, Json.num 1)]) :=
  ⟨rfl, rfl, rfl⟩

/-- C8 (summary ordering): for every oracle stub and chunk list, the
metrics summary is the per-chunk responses, in chunk order, joined by a
blank line. -/
theorem summaryOrdering_join (chat : List ChatMessage → OllamaResponse)
    (chunks : List (List Char)) (dataType : List Char) :
    extractMetricsFromChunks chat chunks dataType =
      List.intercalate ("\n\n").toList
        (chunks.map (fun chunk =>
          (chat [⟨("system").toList, extractPrompt dataType⟩,
                 ⟨("user").toList, chunk⟩]).message.content)) :=
  jsJoin_eq_intercalate _ _

/-- C9 (totality and termination): for positive maxSize the cut point
strictly advances at every iteration and never overshoots the text, any
fuel of at least the text length reproduces the loop result (the loop
terminates), and the empty string yields the empty chunk list. -/
theorem chunker_total (text : List Char) (cs : Nat) (hcs : 0 < cs) :
    (∀ i, i < text.length →
      i < chunkEnd text cs i ∧ chunkEnd text cs i ≤ text.length) ∧
    (∀ fuel, text.length ≤ fuel →
      chunksGo text cs fuel 0 = splitIntoChunksAll text cs) ∧
    splitIntoChunks [] cs = [] := by
  refine ⟨fun i hi => chunkEnd_bounds text cs i hcs hi, ?_, rfl⟩
  intro fuel hf
  have h1 := chunksGo_fuel_add text cs hcs (fuel - text.length) text.length 0 (by omega)
  have h2 := chunksGo_fuel_add text cs hcs 1 text.length 0 (by omega)
  have hfe : text.length + (fuel - text.length) = fuel := by omega
  rw [hfe] at h1
  unfold splitIntoChunksAll
  rw [h1, h2]

/-- Witness for C9 at `"hi"`, maxSize 3, fuel 2. -/
theorem chunker_total_witness :
    (0 < chunkEnd ("hi").toList 3 0 ∧
      chunkEnd ("hi").toList 3 0 ≤ ("hi").toList.length) ∧
    chunksGo ("hi").toList 3 2 0 = splitIntoChunksAll ("hi").toList 3 ∧
    splitIntoChunks [] 3 = [] :=
  ⟨(chunker_total ("hi").toList 3 (by decide)).1 0 (by decide),
   (chunker_total ("hi").toList 3 (by decide)).2.1 2 (by decide),
   (chunker_total ("hi").toList 3 (by decide)).2.2⟩

/-- C10 (implicit cap): `splitIntoChunks` returns the first at most five
chunks of the loop output; anything after the fifth cut is discarded. -/
theorem chunkCap_five (text : List Char) (cs : Nat) :
    splitIntoChunks text cs = List.take 5 (splitIntoChunksAll text cs) ∧
    (splitIntoChunks text cs).length ≤ 5 := by
  refine ⟨rfl, ?_⟩
  unfold splitIntoChunks
  rw [List.length_take]
  exact Nat.min_le_left _ _

end ProjectHealth
